import Mathlib

/-!
Verification of the cardano-cli wrapper codec (`src/cardano-cli.ts`, class
`DkCardanoCli`, together with the identical builders in `src/helper.ts`).

The embedding translates the JavaScript string/command building code into pure
Lean functions:

* JavaScript strings are Lean `String`s; `trim`/`trimStart`/`trimEnd`,
  single-character `split`, `join` and `includes` are modelled over `String.data`.
* JavaScript objects used as `asset id -> quantity` maps are association lists
  (`Bundle`) in property-insertion order, exactly as the source mutates them.
* `parseInt` is modelled exactly over arbitrary-precision integers; the IEEE-754
  rounding the JavaScript engine applies on top of this is modelled separately
  by `roundToDouble` and used for the precision analysis.
* Functions that `throw` return `Except String`; file writes performed by the
  builders are collected as an explicit `List FileWrite` trace, so that "which
  side effects happened before a failure" is provable.
-/

namespace DkCardanoCli

/-! ## JavaScript string primitives -/

/-- Drop leading whitespace characters of a character list. -/
def dropWS : List Char → List Char
  | [] => []
  | c :: rest => if c.isWhitespace then dropWS rest else c :: rest

/-- Model of JavaScript `String.prototype.trimStart`. -/
def jsTrimStart (s : String) : String := ⟨dropWS s.data⟩

/-- Model of JavaScript `String.prototype.trimEnd`. -/
def jsTrimEnd (s : String) : String := ⟨(dropWS s.data.reverse).reverse⟩

/-- Model of JavaScript `String.prototype.trim`. -/
def jsTrim (s : String) : String := ⟨(dropWS (dropWS s.data).reverse).reverse⟩

/-- Split a character list at every occurrence of the character `c`.
The result is always nonempty; separators are not kept. -/
def splitCharAux (c : Char) : List Char → List (List Char)
  | [] => [[]]
  | x :: xs =>
    match splitCharAux c xs with
    | r :: rs => if x = c then [] :: r :: rs else (x :: r) :: rs
    | [] => [[]]

/-- Model of JavaScript `String.prototype.split` with a one-character separator
(the source only splits on `"\n"`, `" "` and `"+"`). -/
def jsSplit (s : String) (c : Char) : List String :=
  (splitCharAux c s.data).map (fun l => ⟨l⟩)

/-- Model of JavaScript `Array.prototype.join`. -/
def jsJoin (sep : String) : List String → String
  | [] => ""
  | [s] => s
  | s :: rest => s ++ sep ++ jsJoin sep rest

/-- Model of JavaScript `String.prototype.includes`. -/
def jsIncludes (s sub : String) : Bool := decide (sub.data <:+: s.data)

/-- Accumulate a digit list into a natural number. -/
def digitsToNat (l : List Char) : Nat :=
  l.foldl (fun n c => n * 10 + (c.toNat - '0'.toNat)) 0

/-- Model of JavaScript `parseInt` (base 10) over arbitrary-precision integers:
skip leading whitespace, an optional sign, then read the longest digit prefix;
`none` models the `NaN` result when no digit is present.  The engine additionally
rounds the value to an IEEE-754 double; that rounding is modelled by
`roundToDouble` below and is the identity on all quantities below `2^53`. -/
def jsParseInt (s : String) : Option Int :=
  let l := dropWS s.data
  let (sign, l') : Int × List Char :=
    match l with
    | '-' :: rest => (-1, rest)
    | '+' :: rest => (1, rest)
    | _ => (1, l)
  let digits := l'.takeWhile (fun c => c.isDigit)
  if digits = [] then none else some (sign * (digitsToNat digits : Int))

/-- Models `JSON.parse` applied to the datum-hash token of a UTXO listing row:
such a token is a JSON string literal.  Escape sequences are not modelled; a
token containing a backslash or an inner quote is treated as unparsable. -/
def jsonParseString (s : String) : Option String :=
  match s.data with
  | '"' :: rest =>
    if rest ≠ [] ∧ rest.getLast? = some '"' ∧
        ¬ rest.dropLast.contains '"' ∧ ¬ rest.dropLast.contains '\\'
    then some ⟨rest.dropLast⟩ else none
  | _ => none

/-! ## Asset bundles

A JavaScript object used as an `asset id -> quantity` map, in property-insertion
order.  JavaScript objects always have unique keys; theorems that need this
invariant take it as a `bundleNodupKeys` hypothesis. -/

/-- An `asset id -> quantity` map in insertion order. -/
abbrev Bundle := List (String × Int)

/-- Property read `b[k]`: the value at the first entry with key `k`. -/
def bundleLookup : Bundle → String → Option Int
  | [], _ => none
  | e :: rest, k => if e.1 = k then some e.2 else bundleLookup rest k

/-- Property read defaulting to `0` (a missing property contributes nothing). -/
def bundleGetD (b : Bundle) (k : String) : Int := (bundleLookup b k).getD 0

/-- Whether the object has the property `k`. -/
def bundleHas (b : Bundle) (k : String) : Bool := (bundleLookup b k).isSome

/-- The source pattern `if (!m[k]) { m[k] = 0; } m[k] += q;`: add `q` at key
`k`, inserting the key at the end when absent (JavaScript property order). -/
def bundleAdd (b : Bundle) (k : String) (q : Int) : Bundle :=
  if bundleHas b k then b.map (fun e => if e.1 = k then (e.1, e.2 + q) else e)
  else b ++ [(k, q)]

/-- The inner loop of `QueryWalletInfoAsync`: fold every entry of `b` into `a`
with `bundleAdd` (summing quantities at identical asset ids). -/
def bundleMerge (a b : Bundle) : Bundle :=
  b.foldl (fun acc e => bundleAdd acc e.1 e.2) a

/-- The JavaScript-object invariant: keys are unique. -/
def bundleNodupKeys (b : Bundle) : Prop := (b.map Prod.fst).Nodup

instance (b : Bundle) : Decidable (bundleNodupKeys b) :=
  inferInstanceAs (Decidable (b.map Prod.fst).Nodup)

/-- Sum of the values of all entries of `b` whose key is `k`. -/
def bundleSumKey (b : Bundle) (k : String) : Int :=
  ((b.filter (fun e => e.1 = k)).map Prod.snd).sum

/-- Balance computation of `QueryWalletInfoAsync`: fold the bundles of all
UTXOs into an initially empty balance object. -/
def queryWalletBalance (bundles : List Bundle) : Bundle :=
  bundles.foldl (fun acc b => bundleMerge acc b) []

/-! ## Transaction descriptors (`model.ts`)

Field names keep the source's names without the `_` prefix.  Optional fields
(`field?:` in TypeScript) become `Option`; the JavaScript truthiness tests of
the source are modelled explicitly (`none` and the empty string / the number
`0` are falsy). -/

/-- `ScriptDetail`: inline script content to persist at a path. -/
structure ScriptDetail where
  outFilePath : String
  outContent : String

/-- `TxIn` (also used for collaterals). -/
structure TxIn where
  txHash : String
  txIndex : Int
  asset2quantity : Bundle
  datum : Option String := none
  datumHash : Option String := none
  script : Option ScriptDetail := none
  redeemer : Option String := none
  executionUnits : Option (Int × Int) := none

/-- `TxOut`. -/
structure TxOut where
  address : String
  asset2quantity : Bundle
  datumHash : Option String := none

/-- `MintInfo`. -/
structure MintInfo where
  action : String
  assetId : String
  assetQuantity : Int
  policyScriptFilePath : String
  redeemer : Option String := none
  executionUnits : Option (Int × Int) := none

/-- `WithdrawalOption` (`_reward`/`_stakingAddress` are `any`-typed in the
source and only ever interpolated into the command string; they are carried
here as strings). -/
structure WithdrawalOption where
  reward : String
  stakingAddress : String
  datum : Option String := none
  redeemer : Option String := none
  executionUnits : Option (Int × Int) := none
  scriptOutFilePath : String
  scriptOutContent : Option String := none

/-- `CertOption` (`_cert` is `any`-typed and only interpolated; carried as a
string). -/
structure CertOption where
  cert : String
  script : Option ScriptDetail := none
  datum : Option String := none
  redeemer : Option String := none
  executionUnits : Option (Int × Int) := none

/-- `MetadataOption`. -/
structure MetadataOption where
  metadataOutFilePath : String
  metadataOutContent : String

/-- `AuxScriptOption`. -/
structure AuxScriptOption where
  script : ScriptDetail

/-- `BuildRawTransactionOption`. -/
structure BuildRawTransactionOption where
  txIns : List TxIn
  txOuts : List TxOut
  protocolParametersFilePath : String
  txRawBodyOutFilePath : String
  fee : Int
  txInCollateralOptions : Option (List TxIn) := none
  mintOptions : Option (List MintInfo) := none
  withdrawalOptions : Option (List WithdrawalOption) := none
  certsOption : Option (List CertOption) := none
  metadataOption : Option MetadataOption := none
  auxScriptOptions : Option (List AuxScriptOption) := none
  scriptInvalid : Option Bool := none
  invalidBefore : Option Int := none
  invalidAfter : Option Int := none

/-! ## Effect bookkeeping

A file write performed by a builder (`DkFiles.WriteFileOrThrowAsync`):
`(path, content)`.  Builders return their write trace next to their result, so
the trace is available even when the computation ends in a thrown error. -/

/-- One file write: `(path, content)`. -/
abbrev FileWrite := String × String

/-- JavaScript truthiness of an optional string (`undefined` and `""` are
falsy). -/
def jsTruthyStr : Option String → Bool
  | none => false
  | some s => s ≠ ""

/-- Sequencing of write-tracing computations: on error the trace collected so
far is kept and the continuation is not run (a JavaScript `throw` aborts the
`async` function). -/
def weBind {α β : Type} (x : List FileWrite × Except String α)
    (f : α → List FileWrite × Except String β) : List FileWrite × Except String β :=
  match x with
  | (ws, Except.error e) => (ws, Except.error e)
  | (ws, Except.ok a) =>
    let y := f a
    (ws ++ y.1, y.2)

/-- A pure value: no writes, no error. -/
def wePure {α : Type} (a : α) : List FileWrite × Except String α := ([], Except.ok a)

/-- Lift a write-free fallible computation. -/
def weOfExcept {α : Type} (r : Except String α) : List FileWrite × Except String α := ([], r)

/-! ## Flag-grammar builders (`cardano-cli.ts`) -/

/-- The optional `--tx-in-datum-value`/`--tx-in-redeemer-value`/execution-units
suffix shared by the tx-in encoder, with the flag-name prefix as parameter. -/
def datumRedeemerUnitsSuffix (datumFlag redeemerFlag unitsFlag : String)
    (datum redeemer : Option String) (units : Option (Int × Int)) : String :=
  (if jsTruthyStr datum then " " ++ datumFlag ++ " \x27" ++ datum.getD "" ++ "\x27" else "") ++
  (if jsTruthyStr redeemer then " " ++ redeemerFlag ++ " \x27" ++ redeemer.getD "" ++ "\x27" else "") ++
  (match units with
   | some (a, b) => " " ++ unitsFlag ++ " \"(" ++ toString a ++ "," ++ toString b ++ ")\""
   | none => "")

/-- Loop body of `_BuildTxInOptionAsync`: returns the write trace and the
accumulated (still space-prefixed) option string. -/
def txInLoop (isCollateral : Bool) : List TxIn → List FileWrite × Except String String
  | [] => ([], Except.ok "")
  | o :: rest =>
    let flag := " --tx-in" ++ (if isCollateral then "-collateral" else "") ++ " " ++
      o.txHash ++ "#" ++ toString o.txIndex
    match o.script with
    | some sc =>
      if sc.outFilePath = "" ∨ sc.outContent = "" then
        ([], Except.error "Script file path and content are needed")
      else
        let frag := flag ++ " --tx-in-script-file " ++ sc.outFilePath ++
          datumRedeemerUnitsSuffix "--tx-in-datum-value" "--tx-in-redeemer-value"
            "--tx-in-execution-units" o.datum o.redeemer o.executionUnits
        let (ws, r) := txInLoop isCollateral rest
        ((sc.outFilePath, sc.outContent) :: ws, r.map (fun s => frag ++ s))
    | none =>
      let frag := flag ++
        datumRedeemerUnitsSuffix "--tx-in-datum-value" "--tx-in-redeemer-value"
          "--tx-in-execution-units" o.datum o.redeemer o.executionUnits
      let (ws, r) := txInLoop isCollateral rest
      (ws, r.map (fun s => frag ++ s))

/-- `_BuildTxInOptionAsync`. -/
def buildTxInOption (txIns : List TxIn) (isCollateral : Bool) :
    List FileWrite × Except String String :=
  let (ws, r) := txInLoop isCollateral txIns
  (ws, r.map jsTrimStart)

/-- The reserved base-coin asset id (`DkCardanoConst.LOVELACE`). -/
def LOVELACE : String := "lovelace"

/-- Loop body of `_BuildTxOutOption` (no file writes; throws when an output
has no truthy `lovelace` entry). -/
def txOutLoop : List TxOut → Except String String
  | [] => Except.ok ""
  | o :: rest =>
    match bundleLookup o.asset2quantity LOVELACE with
    | none => Except.error "Must send some lovelaces"
    | some v =>
      if v = 0 then Except.error "Must send some lovelaces"
      else
        let nonAda := o.asset2quantity.foldl
          (fun acc e => if e.1 ≠ LOVELACE then acc ++ "+" ++ toString e.2 ++ " " ++ e.1 else acc) ""
        let frag := " --tx-out " ++ o.address ++ "+" ++ toString v ++
          (if nonAda ≠ "" then "+\"" ++ (⟨nonAda.data.drop 1⟩ : String) ++ "\"" else "") ++
          (if jsTruthyStr o.datumHash then " --tx-out-datum-hash " ++ o.datumHash.getD "" else "")
        (txOutLoop rest).map (fun s => frag ++ s)

/-- `_BuildTxOutOption`. -/
def buildTxOutOption (txOuts : List TxOut) : Except String String :=
  (txOutLoop txOuts).map jsTrimStart

/-- The validity test of `_BuildMintOptionAsync`:
`(action == "mint" || action == "burn") && assetId && assetQuantity`
(JavaScript truthiness: the empty asset id and the quantity `0` fail). -/
def mintOk (o : MintInfo) : Bool :=
  (o.action = "mint" || o.action = "burn") && o.assetId ≠ "" && o.assetQuantity ≠ 0

/-- One entry of the `--mint` term list:
`` `${action == "mint" ? "" : "-"}${quantity} ${assetId}` ``. -/
def mintEntryTerm (o : MintInfo) : String :=
  (if o.action = "mint" then "" else "-") ++ toString o.assetQuantity ++ " " ++ o.assetId

/-- The term-list loop of `_BuildMintOptionAsync`: validates each entry in
order and joins the entry terms with `+` (no separator after the last). -/
def mintTermLoop : List MintInfo → Except String String
  | [] => Except.ok ""
  | [o] =>
    if mintOk o then Except.ok (mintEntryTerm o)
    else Except.error "Must provide valid: action, asset, quantity"
  | o :: r :: t =>
    if mintOk o then (mintTermLoop (r :: t)).map (fun s => mintEntryTerm o ++ "+" ++ s)
    else Except.error "Must provide valid: action, asset, quantity"

/-- `_BuildMintOptionAsync`: the quoted term list (with the source's `trimEnd`
before the closing quote) followed by one `--mint-script-file` (plus optional
redeemer / execution-units flags) per action.  Writes no files. -/
def buildMintOption (options : List MintInfo) : Except String String :=
  (mintTermLoop options).map (fun terms =>
    let base := jsTrimEnd ("--mint=\"" ++ terms) ++ "\""
    options.foldl (fun acc o =>
      acc ++ " --mint-script-file " ++ o.policyScriptFilePath ++
      datumRedeemerUnitsSuffix "" "--mint-redeemer-value" "--mint-execution-units"
        none o.redeemer o.executionUnits) base)

/-- Loop body of `_BuildWithdrawalOptionAsync` (never throws). -/
def withdrawalLoop : List WithdrawalOption → List FileWrite × String
  | [] => ([], "")
  | o :: rest =>
    let base := " --withdrawal " ++ o.stakingAddress ++ "+" ++ o.reward
    let (ws, frag) :=
      if jsTruthyStr o.scriptOutContent then
        ([(o.scriptOutFilePath, o.scriptOutContent.getD "")],
         base ++ " --withdrawal-script-file " ++ o.scriptOutFilePath)
      else ([], base)
    let frag := frag ++
      datumRedeemerUnitsSuffix "--withdrawal-script-datum-value"
        "--withdrawal-script-redeemer-value" "--withdrawal-execution-units"
        o.datum o.redeemer o.executionUnits
    let (wsr, s) := withdrawalLoop rest
    (ws ++ wsr, frag ++ s)

/-- `_BuildWithdrawalOptionAsync` (the source ends with a full `trim()`). -/
def buildWithdrawalOption (options : List WithdrawalOption) :
    List FileWrite × Except String String :=
  let (ws, s) := withdrawalLoop options
  (ws, Except.ok (jsTrim s))

/-- Loop body of `_BuildCertOptionAsync` (never throws; a present script is
written without any path/content validation). -/
def certLoop : List CertOption → List FileWrite × String
  | [] => ([], "")
  | o :: rest =>
    let base := " --certificate " ++ o.cert
    let (ws, frag) :=
      match o.script with
      | some sc =>
        ([(sc.outFilePath, sc.outContent)],
         base ++ " --certificate-script-file " ++ sc.outFilePath)
      | none => ([], base)
    let frag := frag ++
      datumRedeemerUnitsSuffix "--certificate-script-datum-value"
        "--certificate-script-redeemer-value" "--certificate-execution-units"
        o.datum o.redeemer o.executionUnits
    let (wsr, s) := certLoop rest
    (ws ++ wsr, frag ++ s)

/-- `_BuildCertOptionAsync` (the source ends with a full `trim()`). -/
def buildCertOption (options : List CertOption) : List FileWrite × Except String String :=
  let (ws, s) := certLoop options
  (ws, Except.ok (jsTrim s))

/-- `_BuildMetadataOptionAsync`: persist the metadata content, then emit the
`--metadata-json-file` flag. -/
def buildMetadataOption (o : MetadataOption) : List FileWrite × Except String String :=
  ([(o.metadataOutFilePath, o.metadataOutContent)],
   Except.ok ("--metadata-json-file " ++ o.metadataOutFilePath))

/-- `_BuildAuxScriptOptionAsync`: persist each script, emit one
`--auxiliary-script-file` flag per entry. -/
def auxScriptLoop : List AuxScriptOption → List FileWrite × String
  | [] => ([], "")
  | o :: rest =>
    let (wsr, s) := auxScriptLoop rest
    ((o.script.outFilePath, o.script.outContent) :: wsr,
     " --auxiliary-script-file " ++ o.script.outFilePath ++ s)

/-- `_BuildAuxScriptOptionAsync` (the source ends with `trimStart()`). -/
def buildAuxScriptOption (options : List AuxScriptOption) :
    List FileWrite × Except String String :=
  let (ws, s) := auxScriptLoop options
  (ws, Except.ok (jsTrimStart s))

/-! ### The component dispatchers of `BuildRawTransactionAsync`
(`option._x ? build(option._x) : ""`; a present empty list is truthy in
JavaScript and is passed to the builder). -/

/-- Collateral part. -/
def collateralPart (o : Option (List TxIn)) : List FileWrite × Except String String :=
  match o with
  | some l => buildTxInOption l true
  | none => wePure ""

/-- Mint part. -/
def mintPart (o : Option (List MintInfo)) : Except String String :=
  match o with
  | some l => buildMintOption l
  | none => Except.ok ""

/-- Withdrawal part. -/
def withdrawalPart (o : Option (List WithdrawalOption)) : List FileWrite × Except String String :=
  match o with
  | some l => buildWithdrawalOption l
  | none => wePure ""

/-- Certificate part. -/
def certsPart (o : Option (List CertOption)) : List FileWrite × Except String String :=
  match o with
  | some l => buildCertOption l
  | none => wePure ""

/-- Metadata part. -/
def metadataPart (o : Option MetadataOption) : List FileWrite × Except String String :=
  match o with
  | some m => buildMetadataOption m
  | none => wePure ""

/-- Auxiliary-script part. -/
def auxScriptPart (o : Option (List AuxScriptOption)) : List FileWrite × Except String String :=
  match o with
  | some l => buildAuxScriptOption l
  | none => wePure ""

/-- `option._scriptInvalid ? "--script-invalid" : ""`. -/
def scriptInvalidFrag : Option Bool → String
  | some true => "--script-invalid"
  | _ => ""

/-- `` option._invalidBefore ? `--invalid-before ${option._invalidBefore}` : "" ``
(the number `0` is falsy). -/
def invalidBeforeFrag : Option Int → String
  | some n => if n = 0 then "" else "--invalid-before " ++ toString n
  | none => ""

/-- `` option._invalidAfter ? `--invalid-hereafter ${option._invalidAfter}` : "" ``
(the number `0` is falsy). -/
def invalidHereafterFrag : Option Int → String
  | some n => if n = 0 then "" else "--invalid-hereafter " ++ toString n
  | none => ""

/-- `BuildRawTransactionAsync`: runs the component builders in the source's
evaluation order (tx-ins, tx-outs, collaterals, mint, withdrawals,
certificates, metadata, auxiliary scripts — this is the order of the side
effects), then assembles the `transaction build-raw` command fragments in the
order of the command template.  The returned list contains the fragments that
are interpolated, in template order, after `transaction build-raw`; whitespace
joining is abstracted. -/
def buildRawTransactionAsync (era : String) (opt : BuildRawTransactionOption) :
    List FileWrite × Except String (List String) :=
  weBind (buildTxInOption opt.txIns false) fun txInOption =>
  weBind (weOfExcept (buildTxOutOption opt.txOuts)) fun txOutOption =>
  weBind (collateralPart opt.txInCollateralOptions) fun txInCollateralOption =>
  weBind (weOfExcept (mintPart opt.mintOptions)) fun mintOption =>
  weBind (withdrawalPart opt.withdrawalOptions) fun withdrawalOption =>
  weBind (certsPart opt.certsOption) fun certsOption =>
  weBind (metadataPart opt.metadataOption) fun metadataOption =>
  weBind (auxScriptPart opt.auxScriptOptions) fun auxScriptOption =>
  wePure
    [era, txInOption, txOutOption, txInCollateralOption, certsOption,
     withdrawalOption, mintOption, auxScriptOption, metadataOption,
     scriptInvalidFrag opt.scriptInvalid,
     invalidBeforeFrag opt.invalidBefore,
     invalidHereafterFrag opt.invalidAfter,
     "--fee " ++ toString opt.fee,
     "--out-file " ++ opt.txRawBodyOutFilePath,
     "--protocol-params-file " ++ opt.protocolParametersFilePath]

/-! ## UTXO listing parser (`QueryUtxoAsync`)

The JavaScript loop mutates `utxo_datumHash` / `asset2quantity` per row; here
the segment loop threads that state explicitly.  Rows on which the JavaScript
code would crash (fewer than two column tokens, a missing datum-hash token) or
store a `NaN` / the key `"undefined"` (an unparsable quantity, an asset segment
with no second token) are mapped to `none`; on every row whose numeric tokens
are well formed the model agrees with the source. -/

/-- A parsed UTXO record (`Model.Utxo`). -/
structure Utxo where
  txHash : String
  txIndex : Int
  datumHash : Option String
  asset2quantity : Bundle
deriving DecidableEq

/-- The segment loop of `QueryUtxoAsync`: state is the current datum hash and
the asset bundle of the row. -/
def parseSegments : List String → Option String → Bundle → Option (Option String × Bundle)
  | [], dh, b => some (dh, b)
  | seg :: rest, dh, b =>
    if jsIncludes seg "TxOutDatumHash" || jsIncludes seg "TxOutDatumNone" then
      if jsIncludes seg "None" then parseSegments rest dh b
      else
        match (jsSplit (jsTrim seg) ' ')[2]? with
        | none => none
        | some tok =>
          match jsonParseString tok with
          | none => none
          | some h => parseSegments rest (some h) b
    else
      match jsSplit (jsTrim seg) ' ' with
      | quantityS :: assetS :: _ =>
        match jsParseInt quantityS with
        | none => none
        | some q => parseSegments rest dh (bundleAdd b assetS q)
      | _ => none

/-- One data row of the listing: trim, split on single spaces discarding empty
tokens, take the hash and the index from the first two columns, rejoin the
rest with single spaces, split on `+` and fold the segments. -/
def parseUtxoRow (row : String) : Option Utxo :=
  match (jsSplit (jsTrim row) ' ').filter (fun s => s ≠ "") with
  | txHashRaw :: txIndexRaw :: rest =>
    match jsParseInt (jsTrim txIndexRaw) with
    | none => none
    | some txIndex =>
      match parseSegments (jsSplit (jsJoin " " rest) '+') none [] with
      | none => none
      | some (dh, bundle) => some ⟨jsTrim txHashRaw, txIndex, dh, bundle⟩
  | _ => none

/-- The data rows of a listing: trim the whole output, split on line feeds and
skip the first two (header) lines unconditionally. -/
def dataRows (stdout : String) : List String :=
  (jsSplit (jsTrim stdout) '\n').drop 2

/-- The parsing part of `QueryUtxoAsync`: a falsy (empty) stdout yields the
empty list immediately; otherwise every data row is parsed in order, one
record per row. -/
def queryUtxoParse (stdout : String) : Option (List Utxo) :=
  if stdout = "" then some [] else (dataRows stdout).mapM parseUtxoRow

/-! ## IEEE-754 rounding of the engine's `Number`

`parseInt` and `+=` in the source operate on JavaScript `Number`s (IEEE-754
binary64).  An integer magnitude is stored as the nearest double: exact below
`2^53`, rounded to the 53-bit significand (ties to even) above it. -/

/-- Floor base-2 logarithm by fuel-bounded halving (the fuel `n` always
suffices); structural recursion so that it reduces inside the kernel. -/
def log2Fuel : Nat → Nat → Nat
  | 0, _ => 0
  | fuel + 1, n => if n ≥ 2 then log2Fuel fuel (n / 2) + 1 else 0

/-- Round a natural number to the nearest integer representable as an IEEE-754
binary64 (53-bit significand, round half to even). -/
def roundToDouble (n : Nat) : Nat :=
  if n ≤ 2 ^ 53 then n
  else
    let k := log2Fuel n n - 52
    let q := n / 2 ^ k
    let r := n % 2 ^ k
    let h := 2 ^ (k - 1)
    if r < h then q * 2 ^ k
    else if h < r then (q + 1) * 2 ^ k
    else (if q % 2 = 0 then q else q + 1) * 2 ^ k

/-! ## Bundle lemmas -/

theorem bundleLookup_eq_dite (a : Bundle) (k : String) :
    bundleLookup a k = if bundleHas a k then some (bundleGetD a k) else none := by
  unfold bundleHas bundleGetD
  cases bundleLookup a k <;> simp

theorem bundleGetD_eq_zero {b : Bundle} {k : String} (h : bundleHas b k = false) :
    bundleGetD b k = 0 := by
  unfold bundleGetD
  unfold bundleHas at h
  cases hb : bundleLookup b k <;> simp_all

theorem bundleHas_cons (e : String × Int) (rest : Bundle) (k : String) :
    bundleHas (e :: rest) k = (decide (e.1 = k) || bundleHas rest k) := by
  by_cases h : e.1 = k <;> simp [bundleHas, bundleLookup, h]

theorem bundleLookup_map_add (b : Bundle) (k : String) (q : Int) :
    bundleLookup (b.map (fun e => if e.1 = k then (e.1, e.2 + q) else e)) k =
      (bundleLookup b k).map (fun v => v + q) := by
  induction b with
  | nil => rfl
  | cons e rest ih =>
    by_cases h : e.1 = k <;> simp [bundleLookup, h, ih]

theorem bundleLookup_map_add_ne (b : Bundle) (k : String) (q : Int) (k' : String)
    (h : k' ≠ k) :
    bundleLookup (b.map (fun e => if e.1 = k then (e.1, e.2 + q) else e)) k' =
      bundleLookup b k' := by
  induction b with
  | nil => rfl
  | cons e rest ih =>
    by_cases he : e.1 = k
    · have : e.1 ≠ k' := by
        intro hk
        exact h (hk ▸ he ▸ rfl)
      simp [bundleLookup, he, this, ih, Ne.symm h]
    · by_cases he' : e.1 = k' <;> simp [bundleLookup, he, he', ih, h]

theorem bundleLookup_append_single (b : Bundle) (k : String) (q : Int)
    (h : bundleHas b k = false) :
    bundleLookup (b ++ [(k, q)]) k = some q := by
  induction b with
  | nil => simp [bundleLookup]
  | cons e rest ih =>
    rw [bundleHas_cons] at h
    simp only [Bool.or_eq_false_iff, decide_eq_false_iff_not] at h
    simp [bundleLookup, h.1, ih h.2]

theorem bundleLookup_append_single_ne (b : Bundle) (k : String) (q : Int) (k' : String)
    (h : k' ≠ k) :
    bundleLookup (b ++ [(k, q)]) k' = bundleLookup b k' := by
  induction b with
  | nil => simp [bundleLookup, Ne.symm h]
  | cons e rest ih =>
    by_cases he : e.1 = k' <;> simp [bundleLookup, he, ih]

theorem bundleLookup_bundleAdd_self (b : Bundle) (k : String) (q : Int) :
    bundleLookup (bundleAdd b k q) k = some (bundleGetD b k + q) := by
  unfold bundleAdd
  by_cases h : bundleHas b k
  · rw [if_pos h, bundleLookup_map_add, bundleLookup_eq_dite, if_pos h]
    rfl
  · rw [if_neg h, bundleLookup_append_single b k q (by simpa using h),
      bundleGetD_eq_zero (by simpa using h)]
    simp

theorem bundleLookup_bundleAdd_ne (b : Bundle) (k : String) (q : Int) (k' : String)
    (h : k' ≠ k) :
    bundleLookup (bundleAdd b k q) k' = bundleLookup b k' := by
  unfold bundleAdd
  by_cases hb : bundleHas b k
  · rw [if_pos hb, bundleLookup_map_add_ne b k q k' h]
  · rw [if_neg hb, bundleLookup_append_single_ne b k q k' h]

theorem bundleHas_bundleAdd (b : Bundle) (k : String) (q : Int) (k' : String) :
    bundleHas (bundleAdd b k q) k' = (bundleHas b k' || decide (k' = k)) := by
  by_cases h : k' = k
  · subst h
    simp [bundleHas, bundleLookup_bundleAdd_self]
  · simp [bundleHas, bundleLookup_bundleAdd_ne b k q k' h, h]

theorem bundleGetD_bundleAdd (b : Bundle) (k : String) (q : Int) (k' : String) :
    bundleGetD (bundleAdd b k q) k' = bundleGetD b k' + (if k' = k then q else 0) := by
  by_cases h : k' = k
  · subst h
    simp [bundleGetD, bundleLookup_bundleAdd_self]
  · simp [bundleGetD, bundleLookup_bundleAdd_ne b k q k' h, h]

theorem bundleSumKey_nil (k : String) : bundleSumKey [] k = 0 := rfl

theorem bundleSumKey_cons (e : String × Int) (rest : Bundle) (k : String) :
    bundleSumKey (e :: rest) k = (if e.1 = k then e.2 else 0) + bundleSumKey rest k := by
  by_cases h : e.1 = k <;> simp [bundleSumKey, h]

theorem bundleMerge_cons (a : Bundle) (e : String × Int) (rest : Bundle) :
    bundleMerge a (e :: rest) = bundleMerge (bundleAdd a e.1 e.2) rest := rfl

theorem bundleLookup_bundleMerge (b : Bundle) : ∀ (a : Bundle) (k : String),
    bundleLookup (bundleMerge a b) k =
      if bundleHas a k || bundleHas b k then
        some (bundleGetD a k + bundleSumKey b k) else none := by
  induction b with
  | nil =>
    intro a k
    show bundleLookup a k = if (bundleHas a k || bundleHas ([] : Bundle) k) = true then
      some (bundleGetD a k + bundleSumKey [] k) else none
    rw [bundleLookup_eq_dite a k]
    simp [bundleSumKey, bundleHas, bundleLookup]
  | cons e rest ih =>
    intro a k
    rw [bundleMerge_cons, ih (bundleAdd a e.1 e.2) k, bundleHas_bundleAdd,
      bundleGetD_bundleAdd, bundleSumKey_cons, bundleHas_cons]
    by_cases h : k = e.1
    · simp only [h, decide_True, Bool.or_true, Bool.true_or, if_pos rfl, ite_true]
      rw [Int.add_assoc]
    · have h' : ¬ e.1 = k := fun hk => h hk.symm
      simp [h, h']

theorem bundleHas_iff_mem_keys (b : Bundle) (k : String) :
    bundleHas b k = true ↔ k ∈ b.map Prod.fst := by
  induction b with
  | nil => simp [bundleHas, bundleLookup]
  | cons e rest ih =>
    rw [bundleHas_cons]
    simp [ih, @eq_comm _ e.1 k]

theorem bundleHas_eq_false_of_not_mem {b : Bundle} {k : String}
    (h : k ∉ b.map Prod.fst) : bundleHas b k = false := by
  cases hb : bundleHas b k
  · rfl
  · exact absurd ((bundleHas_iff_mem_keys b k).1 hb) h

theorem bundleSumKey_eq_zero {b : Bundle} {k : String} (h : bundleHas b k = false) :
    bundleSumKey b k = 0 := by
  induction b with
  | nil => rfl
  | cons e rest ih =>
    rw [bundleHas_cons] at h
    simp only [Bool.or_eq_false_iff, decide_eq_false_iff_not] at h
    rw [bundleSumKey_cons, ih h.2, if_neg h.1]
    omega

theorem bundleSumKey_eq_getD (b : Bundle) (k : String) (hb : bundleNodupKeys b) :
    bundleSumKey b k = bundleGetD b k := by
  induction b with
  | nil => rfl
  | cons e rest ih =>
    unfold bundleNodupKeys at hb
    simp only [List.map_cons, List.nodup_cons] at hb
    rw [bundleSumKey_cons]
    by_cases h : e.1 = k
    · have hrest : bundleHas rest k = false :=
        bundleHas_eq_false_of_not_mem (h ▸ hb.1)
      rw [if_pos h, bundleSumKey_eq_zero hrest]
      simp [bundleGetD, bundleLookup, h]
    · rw [if_neg h, ih hb.2]
      simp [bundleGetD, bundleLookup, h]

theorem keys_bundleAdd (b : Bundle) (k : String) (q : Int) :
    (bundleAdd b k q).map Prod.fst =
      if bundleHas b k then b.map Prod.fst else b.map Prod.fst ++ [k] := by
  unfold bundleAdd
  split
  · rw [List.map_map]
    congr 1
    funext e
    by_cases h : e.1 = k <;> simp [h]
  · simp

theorem bundleNodupKeys_bundleAdd {b : Bundle} (k : String) (q : Int)
    (h : bundleNodupKeys b) : bundleNodupKeys (bundleAdd b k q) := by
  unfold bundleNodupKeys at *
  rw [keys_bundleAdd]
  split
  · exact h
  · rename_i hk
    rw [List.nodup_append]
    refine ⟨h, List.nodup_singleton k, ?_⟩
    intro x hx hk'
    simp only [List.mem_singleton] at hk'
    subst hk'
    exact hk ((bundleHas_iff_mem_keys b x).2 hx)

theorem bundleNodupKeys_bundleMerge (b : Bundle) : ∀ {a : Bundle},
    bundleNodupKeys a → bundleNodupKeys (bundleMerge a b) := by
  induction b with
  | nil => intro a h; exact h
  | cons e rest ih =>
    intro a h
    rw [bundleMerge_cons]
    exact ih (bundleNodupKeys_bundleAdd e.1 e.2 h)

theorem bundleHas_bundleMerge (a b : Bundle) (k : String) :
    bundleHas (bundleMerge a b) k = (bundleHas a k || bundleHas b k) := by
  unfold bundleHas
  rw [bundleLookup_bundleMerge]
  split <;> simp_all [bundleHas]

theorem bundleGetD_bundleMerge (a b : Bundle) (k : String) (hb : bundleNodupKeys b) :
    bundleGetD (bundleMerge a b) k = bundleGetD a k + bundleGetD b k := by
  have hm := bundleLookup_bundleMerge b a k
  by_cases h : (bundleHas a k || bundleHas b k) = true
  · rw [if_pos h] at hm
    show (bundleLookup (bundleMerge a b) k).getD 0 = _
    rw [hm, Option.getD_some, bundleSumKey_eq_getD b k hb]
  · rw [if_neg h] at hm
    simp only [Bool.or_eq_true, not_or, Bool.not_eq_true] at h
    show (bundleLookup (bundleMerge a b) k).getD 0 = _
    rw [hm, Option.getD_none, bundleGetD_eq_zero h.1, bundleGetD_eq_zero h.2]
    omega

/-- **C8.** The bundle merge operation of the balance aggregation
(`QueryWalletInfoAsync`) is commutative and associative as a mapping from
asset ids to quantities, and the empty bundle is a right identity (on the
nose).  The hypotheses are the JavaScript-object invariant that keys are
unique. -/
theorem c8_bundle_merge_algebra (a b c : Bundle)
    (ha : bundleNodupKeys a) (hb : bundleNodupKeys b) (hc : bundleNodupKeys c) :
    (∀ k, bundleLookup (bundleMerge a b) k = bundleLookup (bundleMerge b a) k) ∧
    (∀ k, bundleLookup (bundleMerge (bundleMerge a b) c) k =
        bundleLookup (bundleMerge a (bundleMerge b c)) k) ∧
    bundleMerge a [] = a := by
  refine ⟨fun k => ?_, fun k => ?_, rfl⟩
  · rw [bundleLookup_bundleMerge, bundleLookup_bundleMerge,
      bundleSumKey_eq_getD b k hb, bundleSumKey_eq_getD a k ha, Bool.or_comm]
    split <;> [skip; rfl]
    rw [Int.add_comm]
  · rw [bundleLookup_bundleMerge, bundleLookup_bundleMerge,
      bundleSumKey_eq_getD c k hc,
      bundleSumKey_eq_getD (bundleMerge b c) k (bundleNodupKeys_bundleMerge c hb),
      bundleGetD_bundleMerge a b k hb,
      bundleGetD_bundleMerge b c k hc,
      bundleHas_bundleMerge, bundleHas_bundleMerge, Bool.or_assoc, Int.add_assoc]

/-- Witness for `c8_bundle_merge_algebra` at concrete bundles. -/
theorem c8_bundle_merge_algebra_witness :
    (∀ k, bundleLookup (bundleMerge [("lovelace", 90)] [("lovelace", 30), ("nft1", 1)]) k =
        bundleLookup (bundleMerge [("lovelace", 30), ("nft1", 1)] [("lovelace", 90)]) k) ∧
    (∀ k, bundleLookup
        (bundleMerge (bundleMerge [("lovelace", 90)] [("lovelace", 30), ("nft1", 1)]) [("x", 2)]) k =
        bundleLookup
        (bundleMerge [("lovelace", 90)] (bundleMerge [("lovelace", 30), ("nft1", 1)] [("x", 2)])) k) ∧
    bundleMerge [("lovelace", 90)] [] = [("lovelace", 90)] :=
  c8_bundle_merge_algebra [("lovelace", 90)] [("lovelace", 30), ("nft1", 1)] [("x", 2)]
    (by decide) (by decide) (by decide)

/-! ## Mint-encoder lemmas -/

/-- The spec-side join: entries joined by `+`, no separator after the last. -/
def plusJoined : List String → String
  | [] => ""
  | [s] => s
  | s :: rest => s ++ "+" ++ plusJoined rest

/-- Whether a fallible computation succeeded. -/
def exceptIsOk {α : Type} : Except String α → Bool
  | Except.ok _ => true
  | Except.error _ => false

theorem exceptIsOk_map {α β : Type} (f : α → β) (r : Except String α) :
    exceptIsOk (r.map f) = exceptIsOk r := by
  cases r <;> rfl

theorem mintTermLoop_ok (opts : List MintInfo) (h : ∀ o ∈ opts, mintOk o = true) :
    mintTermLoop opts = Except.ok (plusJoined (opts.map mintEntryTerm)) := by
  induction opts with
  | nil => rfl
  | cons o rest ih =>
    have ho : mintOk o = true := h o (List.mem_cons_self o rest)
    have hrest : ∀ x ∈ rest, mintOk x = true := fun x hx => h x (List.mem_cons_of_mem o hx)
    cases rest with
    | nil =>
      have h2 : mintTermLoop [o] = if mintOk o then Except.ok (mintEntryTerm o)
          else Except.error "Must provide valid: action, asset, quantity" := rfl
      rw [h2, if_pos ho]
      rfl
    | cons r t =>
      have h3 : mintTermLoop (o :: r :: t) =
          if mintOk o then (mintTermLoop (r :: t)).map (fun s => mintEntryTerm o ++ "+" ++ s)
          else Except.error "Must provide valid: action, asset, quantity" := rfl
      rw [h3, if_pos ho, ih hrest]
      rfl

theorem mintTermLoop_isOk_false_iff (opts : List MintInfo) :
    exceptIsOk (mintTermLoop opts) = false ↔ ∃ o ∈ opts, mintOk o = false := by
  induction opts with
  | nil => simp [mintTermLoop, exceptIsOk]
  | cons o rest ih =>
    by_cases ho : mintOk o = true
    · cases rest with
      | nil =>
        have h2 : mintTermLoop [o] = if mintOk o then Except.ok (mintEntryTerm o)
            else Except.error "Must provide valid: action, asset, quantity" := rfl
        rw [h2, if_pos ho]
        simp [exceptIsOk, ho]
      | cons r t =>
        have h3 : mintTermLoop (o :: r :: t) =
            if mintOk o then (mintTermLoop (r :: t)).map (fun s => mintEntryTerm o ++ "+" ++ s)
            else Except.error "Must provide valid: action, asset, quantity" := rfl
        rw [h3, if_pos ho, exceptIsOk_map, ih]
        simp [ho]
    · have ho2 : mintOk o = false := by simpa using ho
      cases rest with
      | nil =>
        have h2 : mintTermLoop [o] = if mintOk o then Except.ok (mintEntryTerm o)
            else Except.error "Must provide valid: action, asset, quantity" := rfl
        rw [h2, if_neg ho]
        simp [exceptIsOk, ho2]
      | cons r t =>
        have h3 : mintTermLoop (o :: r :: t) =
            if mintOk o then (mintTermLoop (r :: t)).map (fun s => mintEntryTerm o ++ "+" ++ s)
            else Except.error "Must provide valid: action, asset, quantity" := rfl
        rw [h3, if_neg ho]
        simp [exceptIsOk, ho2]

/-! ## Claim C2 -/

/-- **C2.** For every mint-action list of valid actions containing at least one
mint and at least one burn entry, the term-list loop of `_BuildMintOptionAsync`
produces the entry terms joined by `+` with no separator after the last, a burn
entry's term begins with `-`, a mint entry's term is the unprefixed
`<quantity> <assetId>`, and the example list
`[(mint, p1.a, 5), (burn, p2.b, 2)]` encodes to the quoted term list
`"5 p1.a+-2 p2.b"` inside the full `--mint` option. -/
theorem c2_mint_encoding (opts : List MintInfo)
    (hok : ∀ o ∈ opts,
      (o.action = "mint" ∨ o.action = "burn") ∧ o.assetId ≠ "" ∧ o.assetQuantity ≠ 0)
    (hmint : ∃ o ∈ opts, o.action = "mint") (hburn : ∃ o ∈ opts, o.action = "burn") :
    mintTermLoop opts = Except.ok (plusJoined (opts.map mintEntryTerm)) ∧
    (∀ o ∈ opts, o.action = "burn" → (mintEntryTerm o).data.head? = some '-') ∧
    (∀ o ∈ opts, o.action = "mint" →
      mintEntryTerm o = toString o.assetQuantity ++ " " ++ o.assetId) ∧
    buildMintOption
        [⟨"mint", "p1.a", 5, "pf1", none, none⟩, ⟨"burn", "p2.b", 2, "pf2", none, none⟩] =
      Except.ok "--mint=\"5 p1.a+-2 p2.b\" --mint-script-file pf1 --mint-script-file pf2" := by
  refine ⟨?_, ?_, ?_, by rfl⟩
  · refine mintTermLoop_ok opts (fun o ho => ?_)
    have h := hok o ho
    simp [mintOk, h.2.1, h.2.2]
    rcases h.1 with h1 | h1 <;> simp [h1]
  · intro o ho hb
    simp [mintEntryTerm, hb]
  · intro o ho hm
    simp [mintEntryTerm, hm]

/-- Witness for `c2_mint_encoding` at the example list. -/
theorem c2_mint_encoding_witness :
    mintTermLoop [⟨"mint", "p1.a", 5, "pf1", none, none⟩, ⟨"burn", "p2.b", 2, "pf2", none, none⟩] =
      Except.ok (plusJoined
        ([⟨"mint", "p1.a", 5, "pf1", none, none⟩,
          ⟨"burn", "p2.b", 2, "pf2", none, none⟩].map mintEntryTerm)) ∧
    (∀ o ∈ [(⟨"mint", "p1.a", 5, "pf1", none, none⟩ : MintInfo),
        ⟨"burn", "p2.b", 2, "pf2", none, none⟩],
      o.action = "burn" → (mintEntryTerm o).data.head? = some '-') ∧
    (∀ o ∈ [(⟨"mint", "p1.a", 5, "pf1", none, none⟩ : MintInfo),
        ⟨"burn", "p2.b", 2, "pf2", none, none⟩],
      o.action = "mint" → mintEntryTerm o = toString o.assetQuantity ++ " " ++ o.assetId) ∧
    buildMintOption
        [⟨"mint", "p1.a", 5, "pf1", none, none⟩, ⟨"burn", "p2.b", 2, "pf2", none, none⟩] =
      Except.ok "--mint=\"5 p1.a+-2 p2.b\" --mint-script-file pf1 --mint-script-file pf2" :=
  c2_mint_encoding
    [⟨"mint", "p1.a", 5, "pf1", none, none⟩, ⟨"burn", "p2.b", 2, "pf2", none, none⟩]
    (by decide) (by decide) (by decide)

/-! ## Claim C5 (corrected) -/

/-- **C5, counterexample.** The mint encoder does not reject a negative
quantity: on the single action `(mint, "a", -2)` it raises no validation error
and happily encodes the signed magnitude, contradicting the claim that a
negative quantity is rejected. -/
theorem c5_counterexample :
    buildMintOption [⟨"mint", "a", -2, "p.json", none, none⟩] =
      Except.ok "--mint=\"-2 a\" --mint-script-file p.json" := by rfl

/-- **C5, amended.** The mint encoder validates every action before any output
is produced, but the quantity check is only JavaScript truthiness: it fails
exactly when some action has an unrecognized tag, an empty asset id, or the
quantity `0` — a negative quantity passes validation. -/
theorem c5_amended_validation (opts : List MintInfo) :
    exceptIsOk (buildMintOption opts) = false ↔
      ∃ o ∈ opts,
        ¬((o.action = "mint" ∨ o.action = "burn") ∧ o.assetId ≠ "" ∧ o.assetQuantity ≠ 0) := by
  rw [show buildMintOption opts = (mintTermLoop opts).map _ from rfl, exceptIsOk_map,
    mintTermLoop_isOk_false_iff]
  refine ⟨fun ⟨o, ho, hf⟩ => ⟨o, ho, ?_⟩, fun ⟨o, ho, hf⟩ => ⟨o, ho, ?_⟩⟩
  · intro hc
    have : mintOk o = true := by
      simp [mintOk, hc.2.1, hc.2.2]
      rcases hc.1 with h1 | h1 <;> simp [h1]
    simp [this] at hf
  · cases hm : mintOk o
    · rfl
    · exfalso
      apply hf
      simp [mintOk] at hm
      exact ⟨hm.1.1, hm.1.2, hm.2⟩

/-! ## Claim C3 -/

set_option maxRecDepth 100000 in
/-- **C3.** Parsing the example UTXO data row yields exactly one record with
the stated hash, index `1`, no datum hash, and the two-entry bundle; and asset
segments repeating one asset id within a row are summed into a single bundle
entry (shown on a concrete duplicated row and for the row-level add operation
in general). -/
theorem c3_utxo_row_parse :
    parseUtxoRow ("5291500d8b0b859625956de43370f2d2ceb46ba3189bca962ba954f6dc8dee7e     1        1400000 lovelace + 2 53806701cc6fa0bcbfbfd80962a4fb9978c50db79c516b3ba08e5470.756e646566696e6564 + TxOutDatumNone") =
      some ⟨"5291500d8b0b859625956de43370f2d2ceb46ba3189bca962ba954f6dc8dee7e", 1, none,
        [("lovelace", 1400000),
         ("53806701cc6fa0bcbfbfd80962a4fb9978c50db79c516b3ba08e5470.756e646566696e6564", 2)]⟩ ∧
    parseUtxoRow "h 0 1 a + 2 a + TxOutDatumNone" = some ⟨"h", 0, none, [("a", 3)]⟩ ∧
    (∀ (k : String) (q r : Int), bundleAdd (bundleAdd [] k q) k r = [(k, q + r)]) := by
  refine ⟨by decide, by decide, fun k q r => ?_⟩
  simp [bundleAdd, bundleHas, bundleLookup]

/-! ## Claim C9 -/

/-- **C9.** The quantity in a listing row is an arbitrary-precision integer in
this model (`jsParseInt`), but the source stores it via JavaScript `parseInt`
into an IEEE-754 double: at the quantity `2^53 + 1` the stored double
(`roundToDouble`) differs from the exact value, so parsing is not exact beyond
the 53-bit significand, contrary to the claim and to the `Utxo` doc comment
("bigint (NOT js-number)"). -/
theorem c9_quantity_precision :
    parseUtxoRow "h 0 9007199254740993 lovelace + TxOutDatumNone" =
      some ⟨"h", 0, none, [("lovelace", 9007199254740993)]⟩ ∧
    roundToDouble 9007199254740993 = 9007199254740992 ∧
    roundToDouble 9007199254740993 ≠ 9007199254740993 := by
  refine ⟨by decide, by decide, by decide⟩

/-! ## Claim C10 -/

/-- **C10.** A validity-bound slot of `0` is falsy in the source's truthiness
test, so `BuildRawTransactionAsync` emits no `--invalid-before` (resp.
`--invalid-hereafter`) fragment for it: the whole build (writes and command
fragments) is indistinguishable from the build with the bound unset. -/
theorem c10_zero_validity_bound (era : String) (opt : BuildRawTransactionOption) :
    buildRawTransactionAsync era { opt with invalidBefore := some 0 } =
      buildRawTransactionAsync era { opt with invalidBefore := none } ∧
    buildRawTransactionAsync era { opt with invalidAfter := some 0 } =
      buildRawTransactionAsync era { opt with invalidAfter := none } ∧
    invalidBeforeFrag (some 0) = "" ∧ invalidHereafterFrag (some 0) = "" := by
  refine ⟨?_, ?_, rfl, rfl⟩ <;>
    simp [buildRawTransactionAsync, invalidBeforeFrag, invalidHereafterFrag]

/-! ## Claim C6 -/

theorem dropWS_cons (c : Char) (l : List Char) :
    dropWS (c :: l) = if c.isWhitespace then dropWS l else c :: l := rfl

theorem jsTrimStart_txout (t : String) :
    jsTrimStart (" --tx-out " ++ t) = "--tx-out " ++ t := by
  have h1 : (" --tx-out " ++ t).data = ' ' :: ("--tx-out " ++ t).data := rfl
  show (⟨dropWS (" --tx-out " ++ t).data⟩ : String) = "--tx-out " ++ t
  rw [h1, dropWS_cons, if_pos (show (' ').isWhitespace = true from rfl)]
  have h2 : ("--tx-out " ++ t).data = '-' :: ("-tx-out " ++ t).data := rfl
  rw [h2, dropWS_cons, if_neg (show ¬ ('-').isWhitespace = true from by decide)]
  exact String.ext h2.symm

/-- **C6.** Encoding a single output whose bundle holds only the base coin
with quantity `q > 0` yields exactly `--tx-out <addr>+<q>`: no non-base asset
list and no datum-hash flag is appended. -/
theorem c6_single_asset_txout (addr : String) (q : Int) (h : 0 < q) :
    buildTxOutOption [⟨addr, [("lovelace", q)], none⟩] =
      Except.ok ("--tx-out " ++ addr ++ "+" ++ toString q) := by
  have hq : ¬ q = 0 := by omega
  have h1 : txOutLoop [⟨addr, [("lovelace", q)], none⟩] =
      Except.ok (" --tx-out " ++ addr ++ "+" ++ toString q) := by
    simp [txOutLoop, bundleLookup, LOVELACE, hq, jsTruthyStr, List.foldl,
      String.append_empty, Except.map]
  show Except.map jsTrimStart (txOutLoop [⟨addr, [("lovelace", q)], none⟩]) = _
  rw [h1]
  show Except.ok (jsTrimStart (" --tx-out " ++ addr ++ "+" ++ toString q)) = _
  simp only [String.append_assoc]
  rw [jsTrimStart_txout]

/-- Witness for `c6_single_asset_txout` at a concrete output. -/
theorem c6_single_asset_txout_witness :
    buildTxOutOption [⟨"addr_test1", [("lovelace", 5)], none⟩] =
      Except.ok ("--tx-out " ++ "addr_test1" ++ "+" ++ toString (5 : Int)) :=
  c6_single_asset_txout "addr_test1" 5 (by decide)

/-! ## Claim C7 -/

theorem mapM_parseRows (rows : List String)
    (h : ∀ r ∈ rows, (parseUtxoRow r).isSome = true) :
    ∃ l, rows.mapM parseUtxoRow = some l ∧
      List.Forall₂ (fun row u => parseUtxoRow row = some u) rows l := by
  induction rows with
  | nil => exact ⟨[], rfl, List.Forall₂.nil⟩
  | cons r t ih =>
    obtain ⟨u, hu⟩ := Option.isSome_iff_exists.mp (h r (List.mem_cons_self r t))
    obtain ⟨l, hl, hf⟩ := ih (fun x hx => h x (List.mem_cons_of_mem r hx))
    refine ⟨u :: l, ?_, List.Forall₂.cons hu hf⟩
    rw [List.mapM_cons, hu, hl]
    rfl

/-- **C7.** For every listing whose data rows are well formed, the parser
skips the first two header lines unconditionally (`dataRows`), produces
exactly one record per data row preserving row order (`Forall₂` with the
data-row list), and a listing with no data rows — empty output, or only the
two header lines — yields the empty sequence, not an error. -/
theorem c7_utxo_listing_parse :
    (∀ s : String, (∀ row ∈ dataRows s, (parseUtxoRow row).isSome = true) →
      ∃ l, queryUtxoParse s = some l ∧
        List.Forall₂ (fun row u => parseUtxoRow row = some u) (dataRows s) l) ∧
    queryUtxoParse "" = some [] ∧
    queryUtxoParse ("                             TxHash                                 TxIx        Amount\n--------------------------------------------------------------------------------------") = some [] := by
  refine ⟨fun s h => ?_, rfl, by rfl⟩
  by_cases hs : s = ""
  · subst hs
    refine ⟨[], rfl, ?_⟩
    rw [show dataRows "" = [] from rfl]
    exact List.Forall₂.nil
  · obtain ⟨l, hl, hf⟩ := mapM_parseRows (dataRows s) h
    refine ⟨l, ?_, hf⟩
    rw [queryUtxoParse, if_neg hs, hl]

set_option maxRecDepth 100000 in
/-- Witness for `c7_utxo_listing_parse` at a concrete two-row listing. -/
theorem c7_utxo_listing_parse_witness :
    ∃ l, queryUtxoParse ("TxHash  TxIx  Amount\n----\nh 0 5 lovelace + TxOutDatumNone\nk 1 7 lovelace + TxOutDatumNone") = some l ∧
      List.Forall₂ (fun row u => parseUtxoRow row = some u)
        (dataRows ("TxHash  TxIx  Amount\n----\nh 0 5 lovelace + TxOutDatumNone\nk 1 7 lovelace + TxOutDatumNone")) l :=
  c7_utxo_listing_parse.1
    ("TxHash  TxIx  Amount\n----\nh 0 5 lovelace + TxOutDatumNone\nk 1 7 lovelace + TxOutDatumNone")
    (by decide)

/-! ## Claim C4 (corrected) -/

/-- **C4, counterexample.** First input: an output whose lovelace quantity is
negative (so its bundle lacks a positive base-coin quantity) raises no
validation error at all — the build succeeds.  Second input: when the error is
raised (missing lovelace entry), a tx-in script file has already been written,
so the error is not raised before every side effect. -/
theorem c4_counterexample :
    exceptIsOk (buildRawTransactionAsync "--alonzo-era"
      ⟨[⟨"h", 0, [], none, none, none, none, none⟩],
       [⟨"addr", [("lovelace", -5)], none⟩], "pp", "out", 0,
       none, none, none, none, none, none, none, none, none⟩).2 = true ∧
    buildRawTransactionAsync "--alonzo-era"
      ⟨[⟨"h", 0, [], none, none, some ⟨"s.json", "sc"⟩, none, none⟩],
       [⟨"addr", [], none⟩], "pp", "out", 0,
       none, none, none, none, none, none, none, none, none⟩ =
      ([("s.json", "sc")], Except.error "Must send some lovelaces") :=
  ⟨rfl, rfl⟩

theorem txOutLoop_error (outs : List TxOut)
    (h : ∃ o ∈ outs, bundleLookup o.asset2quantity LOVELACE = none ∨
      bundleLookup o.asset2quantity LOVELACE = some 0) :
    txOutLoop outs = Except.error "Must send some lovelaces" := by
  induction outs with
  | nil => simp at h
  | cons o rest ih =>
    rcases h with ⟨x, hx, hlv⟩
    rcases List.mem_cons.mp hx with rfl | hx2
    · rcases hlv with h1 | h1 <;> simp [txOutLoop, h1]
    · cases hl : bundleLookup o.asset2quantity LOVELACE with
      | none => simp [txOutLoop, hl]
      | some v =>
        by_cases hv : v = 0
        · simp [txOutLoop, hl, hv]
        · simp [txOutLoop, hl, hv, ih ⟨x, hx2, hlv⟩, Except.map]

/-- **C4, amended.** If the tx-in encoder (which runs first and may write
tx-in script files) succeeds with write trace `w`, and some output's bundle
has no lovelace entry or a zero one, then the build stops with the validation
error `"Must send some lovelaces"`, no command fragments are produced, and the
writes performed are exactly the tx-in writes `w` — no collateral, withdrawal,
certificate, metadata, or auxiliary-script side effect happens after the
failure.  (A negative lovelace quantity, however, passes the truthiness check,
and the tx-in script writes do precede the validation — see the
counterexample.) -/
theorem c4_amended_validation (era : String) (opt : BuildRawTransactionOption)
    (w : List FileWrite) (s : String)
    (hin : buildTxInOption opt.txIns false = (w, Except.ok s))
    (hout : ∃ o ∈ opt.txOuts, bundleLookup o.asset2quantity LOVELACE = none ∨
      bundleLookup o.asset2quantity LOVELACE = some 0) :
    buildRawTransactionAsync era opt = (w, Except.error "Must send some lovelaces") := by
  have ho : buildTxOutOption opt.txOuts = Except.error "Must send some lovelaces" := by
    rw [show buildTxOutOption opt.txOuts = (txOutLoop opt.txOuts).map jsTrimStart from rfl,
      txOutLoop_error opt.txOuts hout]
    rfl
  simp [buildRawTransactionAsync, weBind, weOfExcept, hin, ho]

/-- Witness for `c4_amended_validation` at the concrete failing build. -/
theorem c4_amended_validation_witness :
    buildRawTransactionAsync "--alonzo-era"
      ⟨[⟨"hw", 2, [], none, none, some ⟨"w.json", "wc"⟩, none, none⟩],
       [⟨"addrw", [("lovelace", 0)], none⟩], "pp", "out", 1,
       none, none, none, none, none, none, none, none, none⟩ =
      ([("w.json", "wc")], Except.error "Must send some lovelaces") :=
  c4_amended_validation "--alonzo-era" _ [("w.json", "wc")]
    "--tx-in hw#2 --tx-in-script-file w.json" (by rfl) (by decide)

/-! ## Claim C1 -/

/-- **C1.** Whenever every component builder succeeds,
`BuildRawTransactionAsync` composes the command fragments in exactly the fixed
template order: era marker, tx-in, tx-out, tx-in-collateral, certificates,
withdrawals, mint, auxiliary scripts, metadata, script-invalid fragment,
invalid-before fragment, invalid-hereafter fragment, fee, out-file,
protocol-params-file.  The right-hand side is determined by the descriptor
alone, so the order is the same on every invocation with the same descriptor
(the encoder is a pure function of the descriptor). -/
theorem c1_buildRaw_fragment_order (era : String) (opt : BuildRawTransactionOption)
    (w₁ w₂ w₃ w₄ w₅ w₆ : List FileWrite)
    (txInS txOutS collS mintS wdS certS metaS auxS : String)
    (h₁ : buildTxInOption opt.txIns false = (w₁, Except.ok txInS))
    (h₂ : buildTxOutOption opt.txOuts = Except.ok txOutS)
    (h₃ : collateralPart opt.txInCollateralOptions = (w₂, Except.ok collS))
    (h₄ : mintPart opt.mintOptions = Except.ok mintS)
    (h₅ : withdrawalPart opt.withdrawalOptions = (w₃, Except.ok wdS))
    (h₆ : certsPart opt.certsOption = (w₄, Except.ok certS))
    (h₇ : metadataPart opt.metadataOption = (w₅, Except.ok metaS))
    (h₈ : auxScriptPart opt.auxScriptOptions = (w₆, Except.ok auxS)) :
    buildRawTransactionAsync era opt =
      (w₁ ++ w₂ ++ w₃ ++ w₄ ++ w₅ ++ w₆,
       Except.ok [era, txInS, txOutS, collS, certS, wdS, mintS, auxS, metaS,
         scriptInvalidFrag opt.scriptInvalid,
         invalidBeforeFrag opt.invalidBefore,
         invalidHereafterFrag opt.invalidAfter,
         "--fee " ++ toString opt.fee,
         "--out-file " ++ opt.txRawBodyOutFilePath,
         "--protocol-params-file " ++ opt.protocolParametersFilePath]) := by
  simp [buildRawTransactionAsync, weBind, weOfExcept, wePure,
    h₁, h₂, h₃, h₄, h₅, h₆, h₇, h₈, List.append_assoc]

/-- Witness for `c1_buildRaw_fragment_order` at a full concrete descriptor. -/
theorem c1_buildRaw_fragment_order_witness :
    buildRawTransactionAsync "--alonzo-era"
      ⟨[⟨"h1", 0, [], none, none, none, none, none⟩],
       [⟨"a1", [("lovelace", 2)], none⟩], "pp", "out", 3,
       some [⟨"h2", 1, [], none, none, none, none, none⟩],
       some [⟨"mint", "m1", 4, "ps", none, none⟩],
       some [⟨"5", "stk", none, none, none, "wf", none⟩],
       some [⟨"c1", none, none, none, none⟩],
       some ⟨"mf", "mc"⟩,
       some [⟨⟨"af", "ac"⟩⟩],
       some true, some 5, some 9⟩ =
      ([("mf", "mc"), ("af", "ac")],
       Except.ok ["--alonzo-era", "--tx-in h1#0", "--tx-out a1+2",
         "--tx-in-collateral h2#1", "--certificate c1", "--withdrawal stk+5",
         "--mint=\"4 m1\" --mint-script-file ps", "--auxiliary-script-file af",
         "--metadata-json-file mf", "--script-invalid", "--invalid-before 5",
         "--invalid-hereafter 9", "--fee 3", "--out-file out",
         "--protocol-params-file pp"]) :=
  c1_buildRaw_fragment_order "--alonzo-era" _ [] [] [] [] [("mf", "mc")] [("af", "ac")]
    "--tx-in h1#0" "--tx-out a1+2" "--tx-in-collateral h2#1"
    "--mint=\"4 m1\" --mint-script-file ps" "--withdrawal stk+5" "--certificate c1"
    "--metadata-json-file mf" "--auxiliary-script-file af"
    rfl rfl rfl rfl rfl rfl rfl rfl

end DkCardanoCli
